import Mathlib

/-!
Verification of the patch-based data-generator core of the
`medical-segmentation` repository (2D / 2.5D U-Net variants).

The Python sources under `src/unet2d/generator.py` and
`src/unet25d/generator.py` are shallowly embedded: numpy arrays become
nested integer lists (flattened spatial axes) or shape-tagged value
functions, the HDF5 backing store becomes an index-addressed fetch
function, and the stateful generator loops become explicit recursion.
Randomness (epoch shuffles, augmentation draws) is passed in as explicit
parameters constrained by the properties the source guarantees
(a shuffle is a permutation).
-/

namespace MedSeg

/-- A single-channel spatial array, flattened to a list of voxel values. -/
abbrev SpatialArr := List Int

/-- A multi-channel spatial array: one flattened spatial array per channel. -/
abbrev ChArr := List SpatialArr

/-- The HDF5 backing store (`data_file.root`): two parallel index-addressed
arrays, `data[index]` multi-channel and `truth[index]` multi-channel
(of which channel 0 is read). -/
structure DataFile where
  data : List ChArr
  truth : List ChArr

/-- `get_data_from_file` (src/unet2d/generator.py:333-341), whole-image branch
(`patch_shape is None`): returns `data_file.root.data[index]` and
`data_file.root.truth[index, 0]`. -/
def get_data_from_file (data_file : DataFile) (index : Nat) : ChArr × SpatialArr :=
  (data_file.data.getD index [], (data_file.truth.getD index []).headD [])

/-- `np.any(truth != 0)` (src/unet2d/generator.py:524): true when any voxel of
any channel of the truth array is nonzero. -/
def truth_nonblank (truth : ChArr) : Bool :=
  truth.any (fun ch => ch.any (fun v => v ≠ 0))

/-- The append decision of `add_data` (src/unet2d/generator.py:524):
the sample is retained when `not skip_blank or np.any(truth != 0)`. -/
def add_data_keep (skip_blank : Bool) (truth : ChArr) : Bool :=
  !skip_blank || truth_nonblank truth

/-- `add_data` (src/unet2d/generator.py:488-526) on the non-augmenting,
non-permuting path (`augment=False`, `permute=False`): fetch `(data, truth)`
for the index, add a leading axis to the truth (`truth[np.newaxis]`), and
append both to the accumulator lists unless `skip_blank` is set and the truth
is entirely zero.  The fetch (`get_data_from_file`, whose patch branch calls
`get_patch_from_3d_data` from unet3d/utils/patches.py, outside src/) is
passed in as a deterministic function of the index. -/
def add_data (x_list y_list : List ChArr) (fetch : ι → ChArr × SpatialArr)
    (index : ι) (skip_blank : Bool) : List ChArr × List ChArr :=
  let d := fetch index
  let truth : ChArr := [d.2]
  if add_data_keep skip_blank truth then
    (x_list ++ [d.1], y_list ++ [truth])
  else
    (x_list, y_list)

/-- The append decision of `add_data_new` (src/unet2d/generator.py:459-485):
the skip-blank filter at line 483 is commented out in the source, so every
sample is appended regardless of `skip_blank` and of the truth content. -/
def add_data_new_keep (_skip_blank : Bool) (_truth : ChArr) : Bool :=
  true

/-- `add_data_new` (src/unet2d/generator.py:459-485): fetch `(data, truth)`;
when any augmentation flag is set, run the augmentation pipeline
(`augment_data_new`, a tensorlayer/scipy composition, passed in as `augFun`)
over the list of data channels followed by the truth and write the results
back; then add a leading axis to the truth and append both arrays
unconditionally (the skip-blank check at line 483 is commented out). -/
def add_data_new (x_list y_list : List ChArr) (fetch : ι → ChArr × SpatialArr)
    (index : ι) (augment : Bool) (augFun : List SpatialArr → List SpatialArr)
    (skip_blank : Bool) : List ChArr × List ChArr :=
  let d := fetch index
  let pair :=
    if augment then
      let data_list := augFun (d.1 ++ [d.2])
      (data_list.take d.1.length, data_list.getLastD [])
    else
      (d.1, d.2)
  let truth : ChArr := [pair.2]
  if add_data_new_keep skip_blank truth then
    (x_list ++ [pair.1], y_list ++ [truth])
  else
    (x_list, y_list)

/-!
## The epoch drain loop

`data_generator` / `data_generator_new` / `data_generator25d`
(src/unet2d/generator.py:215-270, src/unet25d/generator.py:162-192) all share
the same inner loop: while the (shuffled) index pool is nonempty, pop the
last element (`index_list.pop()`), run the add-data step (which appends the
sample or, under an active skip-blank filter, drops it), and yield a batch
when the accumulator reaches `batch_size` or the pool has just emptied with a
nonempty accumulator.

`drainLoop` models one epoch of that loop at the granularity of sample
indices: `keep ix` is the add step's append decision for index `ix`
(`add_data_keep` composed with the fetch for `data_generator`,
`add_data_new_keep` for `data_generator_new`), and each emitted batch is the
list of indices whose samples were accumulated into `x_list`/`y_list`
(the accumulator length below equals `len(x_list)`).
-/

/-- One epoch's drain loop, popping from the END of the pool
(python `list.pop()`).  `acc` is the current accumulator (`x_list`). -/
def drainLoop (B : Nat) (keep : ι → Bool) : List ι → List ι → List (List ι)
  | [], _acc => []
  | h :: t, acc =>
    let x := (h :: t).getLast (List.cons_ne_nil h t)
    let acc' := if keep x then acc ++ [x] else acc
    if acc'.length = B ∨ ((h :: t).dropLast.isEmpty = true ∧ acc'.isEmpty = false) then
      acc' :: drainLoop B keep ((h :: t).dropLast) []
    else
      drainLoop B keep ((h :: t).dropLast) acc'
termination_by l _ => l.length
decreasing_by
  all_goals simp [List.length_dropLast]

/-- The same loop popping from the FRONT; `drainLoop` on a pool equals
`drainHead` on the reversed pool.  All invariants are proved on this
structurally recursive form. -/
def drainHead (B : Nat) (keep : ι → Bool) : List ι → List ι → List (List ι)
  | [], _acc => []
  | x :: rest, acc =>
    let acc' := if keep x then acc ++ [x] else acc
    if acc'.length = B ∨ (rest.isEmpty = true ∧ acc'.isEmpty = false) then
      acc' :: drainHead B keep rest []
    else
      drainHead B keep rest acc'

theorem drainLoop_eq_drainHead (B : Nat) (keep : ι → Bool) (l acc : List ι) :
    drainLoop B keep l acc = drainHead B keep l.reverse acc := by
  induction l using List.reverseRecOn generalizing acc with
  | nil => simp [drainLoop, drainHead]
  | append_singleton l a ih =>
    have hne : l ++ [a] ≠ [] := by simp
    obtain ⟨h, t, hht⟩ : ∃ h t, l ++ [a] = h :: t := by
      cases hl : l ++ [a] with
      | nil => exact absurd hl hne
      | cons h t => exact ⟨h, t, rfl⟩
    have h1 : ∀ prf, (h :: t).getLast prf = a := by
      intro prf
      have h2 : (h :: t).getLast? = some a := by rw [← hht]; simp
      rw [List.getLast?_eq_getLast (h :: t) prf] at h2
      exact Option.some.inj h2
    have hdrop : (h :: t).dropLast = l := by rw [← hht]; simp
    rw [hht, drainLoop, h1, hdrop, ← hht]
    have hrev : (l ++ [a]).reverse = a :: l.reverse := by simp
    rw [hrev, drainHead]
    have hie : l.reverse.isEmpty = l.isEmpty := by cases l <;> simp
    simp only [hie]
    by_cases hk : keep a
    · simp only [hk, if_pos]
      by_cases hc : (acc ++ [a]).length = B ∨
          (l.isEmpty = true ∧ (acc ++ [a]).isEmpty = false)
      · rw [if_pos hc, if_pos hc, ih]
      · rw [if_neg hc, if_neg hc, ih]
    · simp only [hk, Bool.false_eq_true, if_false]
      by_cases hc : acc.length = B ∨ (l.isEmpty = true ∧ acc.isEmpty = false)
      · rw [if_pos hc, if_pos hc, ih]
      · rw [if_neg hc, if_neg hc, ih]

theorem isEmpty_true_iff (l : List ι) : l.isEmpty = true ↔ l = [] := by
  cases l <;> simp

theorem isEmpty_false_iff (l : List ι) : l.isEmpty = false ↔ l ≠ [] := by
  cases l <;> simp

theorem getLastD_of_ne_nil {l : List γ} (h : l ≠ []) (d d' : γ) :
    l.getLastD d = l.getLastD d' := by
  cases l with
  | nil => exact absurd rfl h
  | cons a t => rw [List.getLastD_cons, List.getLastD_cons]

/-- The concatenation of the batches of one epoch drain equals the
accumulator followed by the retained elements of the pool, in pool order. -/
theorem drainHead_join (B : Nat) (keep : ι → Bool) (l acc : List ι)
    (hside : l = [] → acc = []) :
    (drainHead B keep l acc).flatten = acc ++ l.filter keep := by
  induction l generalizing acc with
  | nil => simp [drainHead, hside rfl]
  | cons x rest ih =>
    rw [drainHead]
    by_cases hk : keep x
    · simp only [hk, if_pos]
      by_cases hc : (acc ++ [x]).length = B ∨
          (rest.isEmpty = true ∧ (acc ++ [x]).isEmpty = false)
      · rw [if_pos hc]
        rw [List.flatten_cons, ih [] (fun _ => rfl)]
        simp [List.filter_cons_of_pos hk]
      · rw [if_neg hc]
        have hrne : rest ≠ [] := by
          intro hr
          exact hc (Or.inr ⟨(isEmpty_true_iff rest).mpr hr,
            (isEmpty_false_iff (acc ++ [x])).mpr (by simp)⟩)
        rw [ih (acc ++ [x]) (fun hr => absurd hr hrne)]
        simp [List.filter_cons_of_pos hk]
    · simp only [hk, Bool.false_eq_true, if_false]
      by_cases hc : acc.length = B ∨ (rest.isEmpty = true ∧ acc.isEmpty = false)
      · rw [if_pos hc]
        rw [List.flatten_cons, ih [] (fun _ => rfl)]
        simp [List.filter_cons_of_neg hk]
      · rw [if_neg hc]
        have hside' : rest = [] → acc = [] := by
          intro hr
          by_contra hacc
          exact hc (Or.inr ⟨(isEmpty_true_iff rest).mpr hr,
            (isEmpty_false_iff acc).mpr hacc⟩)
        rw [ih acc hside']
        simp [List.filter_cons_of_neg hk]

/-- One epoch drain emits exactly `ceil((|acc| + retained) / B)` batches. -/
theorem drainHead_length (B : Nat) (keep : ι → Bool) (hB : 0 < B)
    (l acc : List ι) (hside : l = [] → acc = []) (hacc : acc.length < B) :
    (drainHead B keep l acc).length =
      (acc.length + (l.filter keep).length + B - 1) / B := by
  induction l generalizing acc with
  | nil =>
    rw [hside rfl]
    simp only [drainHead, List.filter_nil, List.length_nil]
    rw [Nat.div_eq_of_lt (by omega)]
  | cons x rest ih =>
    rw [drainHead]
    by_cases hk : keep x
    · simp only [hk, if_pos]
      by_cases hc : (acc ++ [x]).length = B ∨
          (rest.isEmpty = true ∧ (acc ++ [x]).isEmpty = false)
      · rw [if_pos hc]
        have ih0 := ih [] (fun _ => rfl) (by simpa using hB)
        rw [List.length_cons, ih0]
        simp only [List.length_nil, Nat.zero_add]
        rcases hc with hfull | ⟨hre, _⟩
        · simp only [List.length_append, List.length_cons, List.length_nil] at hfull
          rw [List.filter_cons_of_pos hk, List.length_cons]
          rw [show acc.length + ((rest.filter keep).length + 1) + B - 1 =
            ((rest.filter keep).length + B - 1) + B by omega]
          rw [Nat.add_div_right _ hB]
        · have hre' : rest = [] := (isEmpty_true_iff rest).mp hre
          subst hre'
          simp only [List.filter_nil, List.length_nil]
          rw [Nat.div_eq_of_lt (by omega)]
          rw [List.filter_cons_of_pos hk]
          simp only [List.filter_nil, List.length_cons, List.length_nil]
          rw [Nat.div_eq_of_lt_le (k := 1) (by omega) (by omega)]
      · rw [if_neg hc]
        have hlt : (acc ++ [x]).length < B := by
          have hne : (acc ++ [x]).length ≠ B := fun h => hc (Or.inl h)
          simp only [List.length_append, List.length_cons, List.length_nil] at hne ⊢
          omega
        have hrne : rest ≠ [] := by
          intro hr
          exact hc (Or.inr ⟨(isEmpty_true_iff rest).mpr hr,
            (isEmpty_false_iff (acc ++ [x])).mpr (by simp)⟩)
        rw [ih (acc ++ [x]) (fun hr => absurd hr hrne) hlt]
        rw [List.filter_cons_of_pos hk]
        simp only [List.length_append, List.length_cons, List.length_nil]
        congr 1
        omega
    · simp only [hk, Bool.false_eq_true, if_false]
      by_cases hc : acc.length = B ∨ (rest.isEmpty = true ∧ acc.isEmpty = false)
      · rw [if_pos hc]
        rcases hc with hfull | ⟨hre, hane⟩
        · omega
        · have hre' : rest = [] := (isEmpty_true_iff rest).mp hre
          have hane' : acc ≠ [] := (isEmpty_false_iff acc).mp hane
          have hpos : 0 < acc.length := List.length_pos.mpr hane'
          subst hre'
          simp only [drainHead, List.length_cons, List.length_nil]
          rw [List.filter_cons_of_neg hk]
          simp only [List.filter_nil, List.length_nil, Nat.add_zero]
          rw [Nat.div_eq_of_lt_le (k := 1) (by omega) (by omega)]
      · rw [if_neg hc]
        have hside' : rest = [] → acc = [] := by
          intro hr
          by_contra hacc'
          exact hc (Or.inr ⟨(isEmpty_true_iff rest).mpr hr,
            (isEmpty_false_iff acc).mpr hacc'⟩)
        rw [ih acc hside' hacc]
        rw [List.filter_cons_of_neg hk]

/-- A nonempty-pool keep-all drain, and more generally any drain retaining at
least one sample, emits a nonempty batch list (from `drainHead_length`). -/
theorem drainHead_ne_nil (B : Nat) (keep : ι → Bool) (hB : 0 < B)
    (l acc : List ι) (hside : l = [] → acc = []) (hacc : acc.length < B)
    (hM : 0 < acc.length + (l.filter keep).length) :
    drainHead B keep l acc ≠ [] := by
  intro hnil
  have := drainHead_length B keep hB l acc hside hacc
  rw [hnil] at this
  simp only [List.length_nil] at this
  have hlt := Nat.div_eq_zero_iff hB |>.mp this.symm
  omega

/-- Every batch before the last one is exactly full. -/
theorem drainHead_dropLast_sizes (B : Nat) (keep : ι → Bool) (hB : 0 < B)
    (l acc : List ι) (hacc : acc.length < B) :
    ∀ b ∈ (drainHead B keep l acc).dropLast, b.length = B := by
  induction l generalizing acc with
  | nil => simp [drainHead]
  | cons x rest ih =>
    rw [drainHead]
    by_cases hk : keep x
    · simp only [hk, if_pos]
      by_cases hc : (acc ++ [x]).length = B ∨
          (rest.isEmpty = true ∧ (acc ++ [x]).isEmpty = false)
      · rw [if_pos hc]
        cases hr' : drainHead B keep rest [] with
        | nil => simp
        | cons b' bs' =>
          intro b hb
          rw [show (acc ++ [x]) :: b' :: bs' =
            [acc ++ [x]] ++ b' :: bs' from rfl] at hb
          rw [List.dropLast_append_of_ne_nil _ (by simp)] at hb
          rcases List.mem_append.mp hb with hb1 | hb2
          · have hb1' : b = acc ++ [x] := by simpa using hb1
            subst hb1'
            rcases hc with hfull | ⟨hre, _⟩
            · exact hfull
            · exfalso
              have hre' : rest = [] := (isEmpty_true_iff rest).mp hre
              rw [hre'] at hr'
              simp [drainHead] at hr'
          · have := ih [] (by simpa using hB)
            rw [hr'] at this
            exact this b hb2
      · rw [if_neg hc]
        have hlt : (acc ++ [x]).length < B := by
          have hne : (acc ++ [x]).length ≠ B := fun h => hc (Or.inl h)
          simp only [List.length_append, List.length_cons, List.length_nil] at hne ⊢
          omega
        exact ih (acc ++ [x]) hlt
    · simp only [hk, Bool.false_eq_true, if_false]
      by_cases hc : acc.length = B ∨ (rest.isEmpty = true ∧ acc.isEmpty = false)
      · rw [if_pos hc]
        cases hr' : drainHead B keep rest [] with
        | nil => simp
        | cons b' bs' =>
          intro b hb
          rw [show acc :: b' :: bs' = [acc] ++ b' :: bs' from rfl] at hb
          rw [List.dropLast_append_of_ne_nil _ (by simp)] at hb
          rcases List.mem_append.mp hb with hb1 | hb2
          · have hb1' : b = acc := by simpa using hb1
            subst hb1'
            rcases hc with hfull | ⟨hre, _⟩
            · exact hfull
            · exfalso
              have hre' : rest = [] := (isEmpty_true_iff rest).mp hre
              rw [hre'] at hr'
              simp [drainHead] at hr'
          · have := ih [] (by simpa using hB)
            rw [hr'] at this
            exact this b hb2
      · rw [if_neg hc]
        exact ih acc hacc

/-- The last emitted batch has `M mod B` samples (`B` when `B` divides the
number `M` of retained samples). -/
theorem drainHead_getLast_size (B : Nat) (keep : ι → Bool) (hB : 0 < B)
    (l acc : List ι) (hside : l = [] → acc = []) (hacc : acc.length < B)
    (hne : drainHead B keep l acc ≠ []) :
    ((drainHead B keep l acc).getLastD []).length =
      (if (acc.length + (l.filter keep).length) % B = 0 then B
       else (acc.length + (l.filter keep).length) % B) := by
  induction l generalizing acc with
  | nil =>
    exfalso
    apply hne
    simp [drainHead]
  | cons x rest ih =>
    rw [drainHead] at hne ⊢
    by_cases hk : keep x
    · simp only [hk, if_pos] at hne ⊢
      by_cases hc : (acc ++ [x]).length = B ∨
          (rest.isEmpty = true ∧ (acc ++ [x]).isEmpty = false)
      · rw [if_pos hc]
        rw [List.getLastD_cons]
        cases hr' : drainHead B keep rest [] with
        | nil =>
          simp only [List.getLastD_nil]
          have hlen := drainHead_length B keep hB rest [] (fun _ => rfl) (by simpa using hB)
          rw [hr'] at hlen
          simp only [List.length_nil, Nat.zero_add] at hlen
          have hFr : (rest.filter keep).length = 0 := by
            have := Nat.div_eq_zero_iff hB |>.mp hlen.symm
            omega
          rw [List.filter_cons_of_pos hk, List.length_cons, hFr]
          simp only [List.length_append, List.length_cons, List.length_nil]
          have hle : acc.length + 1 ≤ B := by omega
          rcases Nat.lt_or_ge (acc.length + 1) B with hlt | hge
          · rw [if_neg (by
              rw [Nat.mod_eq_of_lt (show acc.length + (0 + 1) < B by omega)]
              omega)]
            rw [Nat.mod_eq_of_lt (show acc.length + (0 + 1) < B by omega)]
          · have hfull : acc.length + 1 = B := by omega
            rw [if_pos (by
              rw [show acc.length + (0 + 1) = B by omega]
              exact Nat.mod_self B)]
            omega
        | cons b' bs' =>
          have hrne : b' :: bs' ≠ [] := by simp
          rw [← hr']
          rw [getLastD_of_ne_nil (by rw [hr']; exact hrne) _ ([] : List ι)]
          have hfull : (acc ++ [x]).length = B := by
            rcases hc with hfull | ⟨hre, _⟩
            · exact hfull
            · exfalso
              have hre' : rest = [] := (isEmpty_true_iff rest).mp hre
              rw [hre'] at hr'
              simp [drainHead] at hr'
          have hne' : drainHead B keep rest [] ≠ [] := by rw [hr']; exact hrne
          rw [ih [] (fun _ => rfl) (by simpa using hB) hne']
          simp only [List.length_nil, Nat.zero_add]
          simp only [List.length_append, List.length_cons, List.length_nil] at hfull
          rw [List.filter_cons_of_pos hk, List.length_cons]
          rw [show acc.length + ((rest.filter keep).length + 1) =
            (rest.filter keep).length + B by omega]
          rw [Nat.add_mod_right]
      · rw [if_neg hc]
        rw [if_neg hc] at hne
        have hlt : (acc ++ [x]).length < B := by
          have hne' : (acc ++ [x]).length ≠ B := fun h => hc (Or.inl h)
          simp only [List.length_append, List.length_cons, List.length_nil] at hne' ⊢
          omega
        have hrne : rest ≠ [] := by
          intro hr
          exact hc (Or.inr ⟨(isEmpty_true_iff rest).mpr hr,
            (isEmpty_false_iff (acc ++ [x])).mpr (by simp)⟩)
        rw [ih (acc ++ [x]) (fun hr => absurd hr hrne) hlt hne]
        rw [List.filter_cons_of_pos hk, List.length_cons]
        simp only [List.length_append, List.length_cons, List.length_nil]
        rw [show acc.length + 1 + (rest.filter keep).length =
          acc.length + ((rest.filter keep).length + 1) by omega]
    · simp only [hk, Bool.false_eq_true, if_false] at hne ⊢
      by_cases hc : acc.length = B ∨ (rest.isEmpty = true ∧ acc.isEmpty = false)
      · rw [if_pos hc]
        rcases hc with hfull | ⟨hre, hane⟩
        · omega
        · have hre' : rest = [] := (isEmpty_true_iff rest).mp hre
          have hane' : acc ≠ [] := (isEmpty_false_iff acc).mp hane
          have hpos : 0 < acc.length := List.length_pos.mpr hane'
          subst hre'
          rw [List.getLastD_cons]
          simp only [drainHead, List.getLastD_nil]
          rw [List.filter_cons_of_neg hk]
          simp only [List.filter_nil, List.length_nil, Nat.add_zero]
          rw [if_neg]
          · rw [Nat.mod_eq_of_lt hacc]
          · rw [Nat.mod_eq_of_lt hacc]
            omega
      · rw [if_neg hc]
        rw [if_neg hc] at hne
        have hside' : rest = [] → acc = [] := by
          intro hr
          by_contra hacc'
          exact hc (Or.inr ⟨(isEmpty_true_iff rest).mpr hr,
            (isEmpty_false_iff acc).mpr hacc'⟩)
        rw [ih acc hside' hacc hne]
        rw [List.filter_cons_of_neg hk]

/-!
## Generator epochs and the infinite stream
-/

/-- One epoch of `data_generator` (src/unet2d/generator.py:215-238): the
sample pool is shuffled (`shuffle(index_list)`), then drained from the end;
the per-index keep decision is `add_data`'s append decision on the fetched
truth.  Batches are given as the lists of sample indices accumulated into
`x_list`/`y_list`. -/
def data_generator_epoch (fetch : ι → ChArr × SpatialArr) (B : Nat)
    (skip_blank : Bool) (shuffle : List ι → List ι) (pool : List ι) :
    List (List ι) :=
  drainLoop B (fun ix => add_data_keep skip_blank [(fetch ix).2]) (shuffle pool) []

/-- One epoch of `data_generator_new` (src/unet2d/generator.py:241-270): the
same loop, but the add step is `add_data_new`, whose skip-blank filter is
commented out, so every popped sample is kept. -/
def data_generator_new_epoch (fetch : ι → ChArr × SpatialArr) (B : Nat)
    (skip_blank : Bool) (shuffle : List ι → List ι) (pool : List ι) :
    List (List ι) :=
  drainLoop B (fun ix => add_data_new_keep skip_blank [(fetch ix).2]) (shuffle pool) []

/-- The batches emitted during the first `numEpochs` iterations of the outer
`while True:` loop of `data_generator` with `patch_shape` absent: each epoch
re-copies the original record list (`copy.copy(orig_index_list)`), shuffles
it (`shuffles k` is epoch `k`'s shuffle) and drains it.  The loop has no
terminating branch; this models every finite prefix of its run. -/
def data_generator_stream (fetch : ι → ChArr × SpatialArr) (B : Nat)
    (skip_blank : Bool) (shuffles : Nat → List ι → List ι)
    (orig_index_list : List ι) (numEpochs : Nat) : List (List ι) :=
  (List.range numEpochs).flatMap
    (fun k => data_generator_epoch fetch B skip_blank (shuffles k) orig_index_list)

/-- `add_data` appends the fetched sample to both lists exactly when its
skip-blank decision `add_data_keep` holds, showing that the index-level
`keep` function used by the epoch model is `add_data`'s append decision. -/
theorem add_data_eq_ite (x_list y_list : List ChArr)
    (fetch : ι → ChArr × SpatialArr) (index : ι) (skip_blank : Bool) :
    add_data x_list y_list fetch index skip_blank =
      if add_data_keep skip_blank [(fetch index).2] then
        (x_list ++ [(fetch index).1], y_list ++ [[(fetch index).2]])
      else (x_list, y_list) := rfl

/-- C1: with skip-blank filtering off and no augmentation, one epoch of
`data_generator` over a non-empty pool of `N` samples with batch size
`B ≥ 1` yields exactly `ceil(N / B)` batches; their concatenation is a
permutation of the pool (every pool sample appears exactly once); every
batch except possibly the last has exactly `B` samples; the last batch is
emitted rather than discarded and has `N mod B` samples (`B` when `B`
divides `N`); and `data_generator_new` behaves identically. -/
theorem C1_epoch_partition (fetch : ι → ChArr × SpatialArr) (B : Nat)
    (shuffle : List ι → List ι) (pool : List ι)
    (hpool : pool ≠ []) (hB : 1 ≤ B) (hsh : (shuffle pool).Perm pool) :
    (data_generator_epoch fetch B false shuffle pool).length =
      (pool.length + B - 1) / B ∧
    (data_generator_epoch fetch B false shuffle pool).flatten.Perm pool ∧
    (∀ b ∈ (data_generator_epoch fetch B false shuffle pool).dropLast,
      b.length = B) ∧
    ((data_generator_epoch fetch B false shuffle pool).getLastD []).length =
      (if pool.length % B = 0 then B else pool.length % B) ∧
    data_generator_new_epoch fetch B false shuffle pool =
      data_generator_epoch fetch B false shuffle pool := by
  have hB0 : 0 < B := hB
  have hperm : (shuffle pool).reverse.Perm pool :=
    ((shuffle pool).reverse_perm).trans hsh
  have hlen : (shuffle pool).reverse.length = pool.length := hperm.length_eq
  have hfilt : ((shuffle pool).reverse.filter
      (fun ix => add_data_keep false [(fetch ix).2])) = (shuffle pool).reverse :=
    List.filter_eq_self.mpr (fun a _ => rfl)
  have hbr : data_generator_epoch fetch B false shuffle pool =
      drainHead B (fun ix => add_data_keep false [(fetch ix).2])
        (shuffle pool).reverse [] :=
    drainLoop_eq_drainHead B _ (shuffle pool) []
  refine ⟨?_, ?_, ?_, ?_, ?_⟩
  · rw [hbr, drainHead_length B _ hB0 _ [] (fun _ => rfl) (by simpa using hB0)]
    rw [hfilt, hlen]
    simp
  · rw [hbr]
    have hj := drainHead_join B (fun ix => add_data_keep false [(fetch ix).2])
      (shuffle pool).reverse [] (fun _ => rfl)
    rw [hfilt] at hj
    rw [hj]
    simpa using hperm
  · rw [hbr]
    exact drainHead_dropLast_sizes B _ hB0 _ [] (by simpa using hB0)
  · have hM : 0 < ([] : List ι).length + ((shuffle pool).reverse.filter
        (fun ix => add_data_keep false [(fetch ix).2])).length := by
      rw [hfilt]
      simp only [List.length_nil, Nat.zero_add, hlen]
      exact List.length_pos.mpr hpool
    have hne := drainHead_ne_nil B
      (fun ix => add_data_keep false [(fetch ix).2]) hB0
      (shuffle pool).reverse [] (fun _ => rfl) (by simpa using hB0) hM
    rw [hbr, drainHead_getLast_size B _ hB0 _ [] (fun _ => rfl)
      (by simpa using hB0) hne]
    rw [hfilt]
    simp only [List.length_nil, Nat.zero_add, hlen]
  · rfl

/-- Witness for C1 at a concrete input: pool of 5 samples, batch size 2,
identity shuffle: 3 batches, sizes 2, 2, 1. -/
theorem C1_epoch_partition_witness :
    (([10, 11, 12, 13, 14] : List Nat) ≠ [] ∧ 1 ≤ 2 ∧
      (id [10, 11, 12, 13, 14] : List Nat).Perm [10, 11, 12, 13, 14]) ∧
    ((data_generator_epoch (fun _ => ([], [])) 2 false id
        ([10, 11, 12, 13, 14] : List Nat)).length = (5 + 2 - 1) / 2 ∧
      (data_generator_epoch (fun _ => ([], [])) 2 false id
        ([10, 11, 12, 13, 14] : List Nat)).flatten.Perm [10, 11, 12, 13, 14] ∧
      (∀ b ∈ (data_generator_epoch (fun _ => ([], [])) 2 false id
        ([10, 11, 12, 13, 14] : List Nat)).dropLast, b.length = 2) ∧
      ((data_generator_epoch (fun _ => ([], [])) 2 false id
        ([10, 11, 12, 13, 14] : List Nat)).getLastD []).length =
        (if 5 % 2 = 0 then 2 else 5 % 2) ∧
      data_generator_new_epoch (fun _ => ([], [])) 2 false id
        ([10, 11, 12, 13, 14] : List Nat) =
        data_generator_epoch (fun _ => ([], [])) 2 false id
          ([10, 11, 12, 13, 14] : List Nat)) :=
  ⟨⟨by decide, by decide, by decide⟩,
    by
      have h := C1_epoch_partition (fun _ => (([], []) : ChArr × SpatialArr)) 2
        id ([10, 11, 12, 13, 14] : List Nat) (by decide) (by decide) (by decide)
      simpa using h⟩

/-- C9: constructed over an empty record list with `patch_shape` absent,
the generator rebuilds an empty pool every epoch and never emits a batch:
for every number of epochs of the non-terminating `while True:` loop, the
list of yielded batches is empty, so a consumer requesting the first batch
waits forever. -/
theorem C9_empty_pool_never_yields (fetch : ι → ChArr × SpatialArr) (B : Nat)
    (skip_blank : Bool) (shuffles : Nat → List ι → List ι)
    (hsh : ∀ k, (shuffles k ([] : List ι)).Perm []) (numEpochs : Nat) :
    data_generator_stream fetch B skip_blank shuffles [] numEpochs = [] := by
  have hnil : ∀ k, shuffles k ([] : List ι) = [] := fun k => (hsh k).eq_nil
  unfold data_generator_stream data_generator_epoch
  simp [hnil, drainLoop]

/-- Witness for C9: identity shuffles, five epochs, no batch emitted. -/
theorem C9_empty_pool_never_yields_witness :
    data_generator_stream (fun _ : Nat => (([], []) : ChArr × SpatialArr)) 4
      false (fun _ l => l) [] 5 = [] :=
  C9_empty_pool_never_yields (fun _ : Nat => (([], []) : ChArr × SpatialArr)) 4
    false (fun _ l => l) (fun _ => List.Perm.refl _) 5

/-!
## Step-count estimators (C2, C3, C4)
-/

/-- `get_number_of_patches` (src/unet2d/generator.py:298-313), patch branch:
for every patch index run a fresh `add_data` with the requested `skip_blank`
and count the indices whose sample was retained (`len(x_list) > 0`).
The patch index list (built by `create_patch_index_list`, identical and
deterministic for the estimator and the generator when no random start
offset is used) is taken as the argument. -/
def get_number_of_patches (fetch : ι → ChArr × SpatialArr)
    (index_list : List ι) (skip_blank : Bool) : Nat :=
  index_list.foldl
    (fun count index =>
      if 0 < ((add_data [] [] fetch index skip_blank).1).length then count + 1
      else count) 0

/-- `get_number_of_patches_new` (src/unet2d/generator.py:273-295): the
exhaustive fetch-and-filter pre-scan (lines 282-293) is commented out in the
source; both the patch branch and the whole-image branch simply return
`len(index_list)`, ignoring `skip_blank` entirely. -/
def get_number_of_patches_new (index_list : List ι) (_skip_blank : Bool) : Nat :=
  index_list.length

/-- Modelled from the spec: `get_number_of_steps` is imported from
unet3d/generator.py, which is not under src/.  Spec §4.5:
"steps_per_epoch(total_samples, batch_size) -> integer, computed as ceiling
division". -/
def get_number_of_steps (n_samples batch_size : Nat) : Nat :=
  (n_samples + batch_size - 1) / batch_size

theorem foldl_count_filter (p : ι → Bool) (l : List ι) :
    ∀ n : Nat, l.foldl (fun c i => if p i then c + 1 else c) n =
      n + (l.filter p).length := by
  induction l with
  | nil => intro n; simp
  | cons x rest ih =>
    intro n
    rw [List.foldl_cons]
    by_cases hp : p x
    · rw [if_pos hp, ih, List.filter_cons_of_pos hp, List.length_cons]
      omega
    · rw [if_neg hp, ih, List.filter_cons_of_neg hp]

/-- C2 counterexample: a store whose only record has an entirely zero truth
array; with `skip_blank = true`, `add_data_new` still appends the sample to
both the input list and the target list (the filter at
src/unet2d/generator.py:483 is commented out), falsifying the claim that the
blank sample is dropped on the `add_data_new` path. -/
theorem C2_counterexample :
    truth_nonblank
      [(get_data_from_file ⟨[[[7, 7]]], [[[0, 0]]]⟩ 0).2] = false ∧
    ((add_data_new [] [] (get_data_from_file ⟨[[[7, 7]]], [[[0, 0]]]⟩) 0
        false id true).1).length = 1 ∧
    ((add_data_new [] [] (get_data_from_file ⟨[[[7, 7]]], [[[0, 0]]]⟩) 0
        false id true).2).length = 1 := by
  refine ⟨by decide, by decide, by decide⟩

/-- C2 amended: on the `add_data` path (used by `data_generator`) a popped
sample with an all-zero truth is silently dropped when `skip_blank` is set —
appended to neither list, with no retry — and a sample with any nonzero
truth voxel is appended; the `add_data_new` path (used by
`data_generator_new`) instead appends every sample unconditionally, for
every value of `skip_blank`, because its skip-blank filter is commented
out. -/
theorem C2_skip_blank_amended (fetch : ι → ChArr × SpatialArr)
    (x_list y_list : List ChArr) (index : ι)
    (augFun : List SpatialArr → List SpatialArr) :
    (add_data x_list y_list fetch index true =
      if truth_nonblank [(fetch index).2] then
        (x_list ++ [(fetch index).1], y_list ++ [[(fetch index).2]])
      else (x_list, y_list)) ∧
    (∀ skip_blank : Bool,
      add_data_new x_list y_list fetch index false augFun skip_blank =
        (x_list ++ [(fetch index).1], y_list ++ [[(fetch index).2]])) := by
  constructor
  · rw [add_data_eq_ite]
    rfl
  · intro skip_blank
    rfl

/-- C3 counterexample: one patch index over a store whose only truth array is
all zero, `skip_blank = true`: `get_number_of_patches_new` returns 1 — the
raw index count — whereas pre-scanning with the skip-blank fetch-and-filter
logic retains 0 samples, so the count is not obtained by that pre-scan. -/
theorem C3_counterexample :
    truth_nonblank
      [(get_data_from_file ⟨[[[5, 5]]], [[[0, 0]]]⟩ 0).2] = false ∧
    get_number_of_patches_new [(0 : Nat)] true = 1 ∧
    (([0] : List Nat).filter
      (fun ix => add_data_keep true
        [(get_data_from_file ⟨[[[5, 5]]], [[[0, 0]]]⟩ ix).2])).length = 0 ∧
    get_number_of_patches_new [(0 : Nat)] true ≠
      (([0] : List Nat).filter
        (fun ix => add_data_keep true
          [(get_data_from_file ⟨[[[5, 5]]], [[[0, 0]]]⟩ ix).2])).length := by
  refine ⟨by decide, by decide, by decide, by decide⟩

/-- C3 amended: `get_number_of_patches` (the exhaustive variant feeding
`get_training_and_validation_generators`) pre-scans every patch index with
`add_data`'s fetch-and-filter logic and counts only retained samples, and
its declared step count `ceil(count / B)` equals the number of batches one
epoch of `data_generator` actually emits; `get_number_of_patches_new` (the
variant feeding `get_training_and_validation_and_testing_generators`)
performs no pre-scan — it returns the raw patch-index count for every value
of `skip_blank` — yet its declared step count still equals what one epoch of
`data_generator_new` emits, because `add_data_new`'s skip-blank filter is
commented out so that generator also never drops a sample. -/
theorem C3_step_count_amended (fetch : ι → ChArr × SpatialArr)
    (index_list : List ι) (B : Nat) (skip_blank : Bool)
    (shuffle : List ι → List ι) (hB : 1 ≤ B)
    (hsh : (shuffle index_list).Perm index_list) :
    get_number_of_patches fetch index_list skip_blank =
      (index_list.filter
        (fun ix => add_data_keep skip_blank [(fetch ix).2])).length ∧
    get_number_of_steps (get_number_of_patches fetch index_list skip_blank) B =
      (data_generator_epoch fetch B skip_blank shuffle index_list).length ∧
    get_number_of_patches_new index_list skip_blank = index_list.length ∧
    get_number_of_steps (get_number_of_patches_new index_list skip_blank) B =
      (data_generator_new_epoch fetch B skip_blank shuffle index_list).length := by
  have hB0 : 0 < B := hB
  have hcount : get_number_of_patches fetch index_list skip_blank =
      (index_list.filter
        (fun ix => add_data_keep skip_blank [(fetch ix).2])).length := by
    rw [get_number_of_patches]
    have hfun : (fun (count : Nat) (index : ι) =>
        if 0 < ((add_data [] [] fetch index skip_blank).1).length then count + 1
        else count) =
        (fun (count : Nat) (index : ι) =>
          if add_data_keep skip_blank [(fetch index).2] then count + 1
          else count) := by
      funext count index
      have hlen : ((add_data ([] : List ChArr) [] fetch index skip_blank).1).length =
          (if add_data_keep skip_blank [(fetch index).2] then 1 else 0) := by
        rw [add_data_eq_ite]
        by_cases hkeep : add_data_keep skip_blank [(fetch index).2]
        · rw [if_pos hkeep, if_pos hkeep]
          rfl
        · rw [if_neg hkeep, if_neg hkeep]
          rfl
      rw [hlen]
      by_cases hkeep : add_data_keep skip_blank [(fetch index).2]
      · simp [hkeep]
      · simp [hkeep]
    rw [hfun, foldl_count_filter]
    simp
  have hperm : (shuffle index_list).reverse.Perm index_list :=
    ((shuffle index_list).reverse_perm).trans hsh
  refine ⟨hcount, ?_, rfl, ?_⟩
  · rw [hcount, get_number_of_steps]
    rw [show data_generator_epoch fetch B skip_blank shuffle index_list =
        drainHead B (fun ix => add_data_keep skip_blank [(fetch ix).2])
          (shuffle index_list).reverse [] from
      drainLoop_eq_drainHead B _ (shuffle index_list) []]
    rw [drainHead_length B _ hB0 _ [] (fun _ => rfl) (by simpa using hB0)]
    have hfl : ((shuffle index_list).reverse.filter
        (fun ix => add_data_keep skip_blank [(fetch ix).2])).length =
        (index_list.filter
          (fun ix => add_data_keep skip_blank [(fetch ix).2])).length :=
      (hperm.filter _).length_eq
    rw [hfl]
    simp
  · rw [get_number_of_steps, get_number_of_patches_new]
    rw [show data_generator_new_epoch fetch B skip_blank shuffle index_list =
        drainHead B (fun ix => add_data_new_keep skip_blank [(fetch ix).2])
          (shuffle index_list).reverse [] from
      drainLoop_eq_drainHead B _ (shuffle index_list) []]
    rw [drainHead_length B _ hB0 _ [] (fun _ => rfl) (by simpa using hB0)]
    have hfl : ((shuffle index_list).reverse.filter
        (fun ix => add_data_new_keep skip_blank [(fetch ix).2])) =
        (shuffle index_list).reverse :=
      List.filter_eq_self.mpr (fun a _ => rfl)
    rw [hfl, hperm.length_eq]
    simp

/-- Witness for C3 amended: two records, the first with a blank truth, the
second non-blank, skip_blank on, batch size 1, identity shuffle. -/
theorem C3_step_count_amended_witness :
    (1 ≤ 1 ∧ (id [0, 1] : List Nat).Perm [0, 1]) ∧
    (get_number_of_patches (get_data_from_file ⟨[[[7]], [[8]]], [[[0]], [[3]]]⟩)
        ([0, 1] : List Nat) true =
      (([0, 1] : List Nat).filter
        (fun ix => add_data_keep true
          [(get_data_from_file ⟨[[[7]], [[8]]], [[[0]], [[3]]]⟩ ix).2])).length ∧
    get_number_of_steps (get_number_of_patches
        (get_data_from_file ⟨[[[7]], [[8]]], [[[0]], [[3]]]⟩)
        ([0, 1] : List Nat) true) 1 =
      (data_generator_epoch (get_data_from_file ⟨[[[7]], [[8]]], [[[0]], [[3]]]⟩)
        1 true id ([0, 1] : List Nat)).length ∧
    get_number_of_patches_new ([0, 1] : List Nat) true = 2 ∧
    get_number_of_steps (get_number_of_patches_new ([0, 1] : List Nat) true) 1 =
      (data_generator_new_epoch
        (get_data_from_file ⟨[[[7]], [[8]]], [[[0]], [[3]]]⟩)
        1 true id ([0, 1] : List Nat)).length) :=
  ⟨⟨by decide, by decide⟩,
    by
      have h := C3_step_count_amended
        (get_data_from_file ⟨[[[7]], [[8]]], [[[0]], [[3]]]⟩)
        ([0, 1] : List Nat) 1 true id (by decide) (by decide)
      simpa using h⟩

/-!
## Split persistence (C4)
-/

/-- A persisted train/validation/test split: three lists of record ids. -/
abbrev Split3 := List Nat × List Nat × List Nat

/-- Modelled from the spec: `get_train_valid_test_split` is imported from
unet3d/generator.py, which is not under src/.  Spec §6: the persisted split
files are "read if present and `overwrite` is false, otherwise regenerated by
randomly partitioning all record ids per the configured split fraction and
written out."  The random regenerated partition is passed in as `fresh`; the
Bool of the result records whether the persisted files were written. -/
def get_train_valid_test_split (overwrite : Bool) (files_present : Bool)
    (existing fresh : Split3) : Split3 × Bool :=
  if files_present && !overwrite then (existing, false) else (fresh, true)

/-- The split step of `get_training_and_validation_and_testing_generators`
(src/unet2d/generator.py:62-66): the wrapper's own `overwrite` (and
`data_split`) arguments are not forwarded — the call passes the literal
`overwrite=False` (and `data_split=0.8`). -/
def entry_split_2d (_overwrite : Bool) (files_present : Bool)
    (existing fresh : Split3) : Split3 × Bool :=
  get_train_valid_test_split false files_present existing fresh

/-- The split step of `get_training_and_validation_and_testing_generators25d`
(src/unet25d/generator.py:71-82): both the brats branch (line 76) and the
isbr branch (line 82) pass the literal `overwrite=False`. -/
def entry_split_25d (_overwrite : Bool) (files_present : Bool)
    (existing fresh : Split3) : Split3 × Bool :=
  get_train_valid_test_split false files_present existing fresh

/-- C4: with the split files present, both generator-building entry points
reuse the persisted split unchanged and never rewrite it, for every value of
their `overwrite` argument — in particular `overwrite = true` does not
trigger a random re-partition, contradicting the wrappers' own docstrings
("overwrite: If set to True, previous files will be overwritten"). -/
theorem C4_overwrite_ignored (overwrite : Bool) (existing fresh : Split3) :
    entry_split_2d overwrite true existing fresh = (existing, false) ∧
    entry_split_25d overwrite true existing fresh = (existing, false) := by
  exact ⟨rfl, rfl⟩

/-!
## Elastic deformation (C7, C8, C10)

`elastic_transform_multi` (src/unet2d/generator.py:372-429).  Arrays are
shape-tagged rational-valued grids (`NdArr`); the scipy collaborators are
passed in as functions: `gf` models `gaussian_filter(·, sigma, mode, cval)`
and `mapC` models `map_coordinates(data, indices, order=1)` (the
`reshape((-1, 1))` on each index field is mere flattening for scipy).
`noise` models the single `random_state.rand(*shape)` draw at line 396,
performed once per call before the element loop (`is_random` only selects
the seed of the `RandomState`).  The per-element computations of
`dx`/`dy`/`dz` (lines 410-414) and of the meshgrid/index fields
(lines 416-420) use loop-invariant inputs only; the definitions
`elastic_dx`/`elastic_dy`/`elastic_dz`/`elastic_indices` name them.
`np.meshgrid(arange(s0), arange(s1), arange(s2))` with default 'xy'
indexing satisfies `x_[i,j,k] = j`, `y_[i,j,k] = i`, `z_[i,j,k] = k`.
-/

/-- A 3-D scalar field. -/
abbrev Grid3 := Nat → Nat → Nat → ℚ

/-- A numpy array: its shape and its values, indexed by coordinate lists. -/
structure NdArr where
  shape : List Nat
  val : List Nat → ℚ

/-- `data[:, :, :, 0]`: drop a trailing singleton axis. -/
def squeeze_last (a : NdArr) : NdArr :=
  ⟨a.shape.dropLast, fun c => a.val (c ++ [0])⟩

/-- `.reshape(sh)`: re-tag the shape. -/
def reshapeTo (sh : List Nat) (a : NdArr) : NdArr :=
  ⟨sh, a.val⟩

/-- `new_shape * 2 - 1` (lines 410-413): affine rescale of the noise. -/
def gridNoiseAffine (g : Grid3) : Grid3 :=
  fun i j k => g i j k * 2 - 1

/-- `dx = gaussian_filter((new_shape * 2 - 1), sigma, mode=mode, cval=cval)
* alpha` (lines 410-411), computed inside the per-element loop. -/
def elastic_dx (gf : Grid3 → ℚ → String → ℚ → Grid3) (noise : Grid3)
    (alpha sigma : ℚ) (mode : String) (cval : ℚ) : Grid3 :=
  fun i j k => gf (gridNoiseAffine noise) sigma mode cval i j k * alpha

/-- `dy = gaussian_filter((new_shape * 2 - 1), sigma, mode=mode, cval=cval)
* alpha` (lines 412-413): textually the same expression as `dx`, over the
same once-per-call noise. -/
def elastic_dy (gf : Grid3 → ℚ → String → ℚ → Grid3) (noise : Grid3)
    (alpha sigma : ℚ) (mode : String) (cval : ℚ) : Grid3 :=
  fun i j k => gf (gridNoiseAffine noise) sigma mode cval i j k * alpha

/-- `dz = np.zeros_like(dx)` (line 414). -/
def elastic_dz (_gf : Grid3 → ℚ → String → ℚ → Grid3) (_noise : Grid3)
    (_alpha _sigma : ℚ) (_mode : String) (_cval : ℚ) : Grid3 :=
  fun _ _ _ => 0

def mesh_x : Grid3 := fun _ j _ => (j : ℚ)

def mesh_y : Grid3 := fun i _ _ => (i : ℚ)

def mesh_z : Grid3 := fun _ _ k => (k : ℚ)

/-- `indices = (y_ + dy, x_ + dx, z_ + dz)` (lines 419-420). -/
def elastic_indices (gf : Grid3 → ℚ → String → ℚ → Grid3) (noise : Grid3)
    (alpha sigma : ℚ) (mode : String) (cval : ℚ) :
    Grid3 × Grid3 × Grid3 :=
  (fun i j k => mesh_y i j k + elastic_dy gf noise alpha sigma mode cval i j k,
   fun i j k => mesh_x i j k + elastic_dx gf noise alpha sigma mode cval i j k,
   fun i j k => mesh_z i j k + elastic_dz gf noise alpha sigma mode cval i j k)

/-- The ranks `elastic_transform_multi` deforms without raising: exactly 3-D,
or 4-D with a trailing singleton channel axis. -/
def elastic_rank_ok (a : NdArr) : Bool :=
  (a.shape.length == 3) || (a.shape.length == 4 && a.shape.getLastD 0 == 1)

/-- The body of the `for data in x:` loop (lines 399-428) for one element:
squeeze a trailing singleton axis (recording `is_4d`), raise on a 4-D array
with a non-singleton trailing axis, raise on any remaining non-3-D rank,
else deform with `map_coordinates` and reshape (`(shape[0], shape[1], 1)`
when `is_4d`, else `shape`). -/
def elastic_step (gf : Grid3 → ℚ → String → ℚ → Grid3)
    (mapC : NdArr → Grid3 × Grid3 × Grid3 → NdArr) (noise : Grid3)
    (alpha sigma : ℚ) (mode : String) (cval : ℚ) (shape : List Nat)
    (data : NdArr) : Except String NdArr :=
  if data.shape.length = 4 ∧ data.shape.getLastD 0 = 1 then
    Except.ok (reshapeTo (shape.take 2 ++ [1])
      (mapC (squeeze_last data) (elastic_indices gf noise alpha sigma mode cval)))
  else if data.shape.length = 4 then
    Except.error "Only support greyscale image"
  else if data.shape.length ≠ 3 then
    Except.error "input should be grey-scale image"
  else
    Except.ok (reshapeTo shape
      (mapC data (elastic_indices gf noise alpha sigma mode cval)))

/-- `results = []` / `for data in x: results.append(...)` with a raise
aborting the loop. -/
def elastic_results_loop (step : NdArr → Except String NdArr) :
    List NdArr → Except String (List NdArr)
  | [] => Except.ok []
  | d :: rest =>
    match step d with
    | Except.error e => Except.error e
    | Except.ok r =>
      match elastic_results_loop step rest with
      | Except.error e => Except.error e
      | Except.ok rs => Except.ok (r :: rs)

/-- `shape = x[0].shape`, truncated to its first three axes when 4-D
(lines 393-395). -/
def elastic_shape (x : List NdArr) : List Nat :=
  let shape0 := (x.headD ⟨[], fun _ => 0⟩).shape
  if shape0.length = 4 then shape0.take 3 else shape0

/-- `elastic_transform_multi(x, alpha, sigma, mode, cval, is_random)`
(src/unet2d/generator.py:372-429). -/
def elastic_transform_multi (gf : Grid3 → ℚ → String → ℚ → Grid3)
    (mapC : NdArr → Grid3 × Grid3 × Grid3 → NdArr) (noise : Grid3)
    (x : List NdArr) (alpha sigma : ℚ) (mode : String) (cval : ℚ)
    (_is_random : Bool) : Except String (List NdArr) :=
  elastic_results_loop
    (elastic_step gf mapC noise alpha sigma mode cval (elastic_shape x)) x

/-- What one successful loop iteration produces, with the index mapping `I`
made an explicit argument (used to state that every element receives the
same mapping). -/
def elastic_apply_one (mapC : NdArr → Grid3 × Grid3 × Grid3 → NdArr)
    (I : Grid3 × Grid3 × Grid3) (shape : List Nat) (data : NdArr) : NdArr :=
  if data.shape.length = 4 ∧ data.shape.getLastD 0 = 1 then
    reshapeTo (shape.take 2 ++ [1]) (mapC (squeeze_last data) I)
  else
    reshapeTo shape (mapC data I)

theorem elastic_step_isOk (gf : Grid3 → ℚ → String → ℚ → Grid3)
    (mapC : NdArr → Grid3 × Grid3 × Grid3 → NdArr) (noise : Grid3)
    (alpha sigma : ℚ) (mode : String) (cval : ℚ) (shape : List Nat)
    (d : NdArr) :
    (elastic_step gf mapC noise alpha sigma mode cval shape d).isOk =
      elastic_rank_ok d := by
  unfold elastic_step elastic_rank_ok
  by_cases h1 : d.shape.length = 4 ∧ d.shape.getLastD 0 = 1
  · rw [if_pos h1]
    simp [Except.isOk, Except.toBool, h1.1, ← List.getLastD_eq_getLast?, h1.2]
  · rw [if_neg h1]
    by_cases h2 : d.shape.length = 4
    · rw [if_pos h2]
      have h3 : d.shape.getLastD 0 ≠ 1 := fun he => h1 ⟨h2, he⟩
      simp [Except.isOk, Except.toBool, h2, ← List.getLastD_eq_getLast?, h3]
    · rw [if_neg h2]
      by_cases h4 : d.shape.length = 3
      · rw [if_neg (by simp [h4])]
        simp [Except.isOk, Except.toBool, h4]
      · rw [if_pos h4]
        simp [Except.isOk, Except.toBool, h2, h4]

theorem elastic_step_ok_of_rank_ok (gf : Grid3 → ℚ → String → ℚ → Grid3)
    (mapC : NdArr → Grid3 × Grid3 × Grid3 → NdArr) (noise : Grid3)
    (alpha sigma : ℚ) (mode : String) (cval : ℚ) (shape : List Nat)
    (d : NdArr) (hok : elastic_rank_ok d = true) :
    elastic_step gf mapC noise alpha sigma mode cval shape d =
      Except.ok (elastic_apply_one mapC
        (elastic_indices gf noise alpha sigma mode cval) shape d) := by
  unfold elastic_rank_ok at hok
  unfold elastic_step elastic_apply_one
  by_cases h1 : d.shape.length = 4 ∧ d.shape.getLastD 0 = 1
  · rw [if_pos h1, if_pos h1]
  · rw [if_neg h1, if_neg h1]
    have h3 : d.shape.length = 3 := by
      simp only [Bool.or_eq_true, Bool.and_eq_true, beq_iff_eq] at hok
      rcases hok with h | ⟨h4, hl⟩
      · exact h
      · exact absurd ⟨h4, hl⟩ h1
    rw [if_neg (by simp [h3]), if_neg (by simp [h3])]

/-- C7: for a list of arrays deformed jointly, a successful call of
`elastic_transform_multi` deforms EVERY element with the same coordinate
mapping `elastic_indices gf noise alpha sigma mode cval`, a function of the
single per-call noise draw and the call parameters only — never of the
element — so a voxel at position p is sent to the same output position in
every array of the list, preserving image-label correspondence. -/
theorem C7_joint_deformation (gf : Grid3 → ℚ → String → ℚ → Grid3)
    (mapC : NdArr → Grid3 × Grid3 × Grid3 → NdArr) (noise : Grid3)
    (x : List NdArr) (alpha sigma : ℚ) (mode : String) (cval : ℚ)
    (is_random : Bool) (hok : ∀ a ∈ x, elastic_rank_ok a = true) :
    elastic_transform_multi gf mapC noise x alpha sigma mode cval is_random =
      Except.ok (x.map (elastic_apply_one mapC
        (elastic_indices gf noise alpha sigma mode cval)
        (elastic_shape x))) := by
  unfold elastic_transform_multi
  have hgen : ∀ (sh : List Nat) (l : List NdArr),
      (∀ a ∈ l, elastic_rank_ok a = true) →
      elastic_results_loop
          (elastic_step gf mapC noise alpha sigma mode cval sh) l =
        Except.ok (l.map (elastic_apply_one mapC
          (elastic_indices gf noise alpha sigma mode cval) sh)) := by
    intro sh l hl
    induction l with
    | nil => rfl
    | cons d rest ih =>
      rw [elastic_results_loop]
      rw [elastic_step_ok_of_rank_ok gf mapC noise alpha sigma mode cval sh d
        (hl d (List.mem_cons_self d rest))]
      rw [ih (fun a ha => hl a (List.mem_cons_of_mem d ha))]
      rw [List.map_cons]
  exact hgen (elastic_shape x) x hok

/-- Witness for C7: two jointly deformed arrays (one 3-D input channel and
one 4-D-with-singleton target), concrete collaborators, zero noise. -/
theorem C7_joint_deformation_witness :
    (∀ a ∈ [(⟨[2, 2, 2], fun _ => 0⟩ : NdArr), ⟨[2, 2, 2, 1], fun _ => 1⟩],
      elastic_rank_ok a = true) ∧
    elastic_transform_multi (fun g _ _ _ => g) (fun a _ => a) (fun _ _ _ => 0)
        [(⟨[2, 2, 2], fun _ => 0⟩ : NdArr), ⟨[2, 2, 2, 1], fun _ => 1⟩]
        720 10 "constant" 0 false =
      Except.ok
        ([(⟨[2, 2, 2], fun _ => 0⟩ : NdArr), ⟨[2, 2, 2, 1], fun _ => 1⟩].map
          (elastic_apply_one (fun a _ => a)
            (elastic_indices (fun g _ _ _ => g) (fun _ _ _ => 0) 720 10
              "constant" 0)
            (elastic_shape
              [(⟨[2, 2, 2], fun _ => 0⟩ : NdArr), ⟨[2, 2, 2, 1], fun _ => 1⟩]))) :=
  ⟨by decide,
    C7_joint_deformation (fun g _ _ _ => g) (fun a _ => a) (fun _ _ _ => 0)
      [(⟨[2, 2, 2], fun _ => 0⟩ : NdArr), ⟨[2, 2, 2, 1], fun _ => 1⟩]
      720 10 "constant" 0 false (by decide)⟩

/-- C8 counterexample: a genuinely 2-D array (rank 2) — which the claim says
is accepted — raises the rank assertion instead, and a 3-D array with a
non-singleton last axis — which the claim says must fail — is deformed
without error. -/
theorem C8_counterexample :
    elastic_transform_multi (fun g _ _ _ => g) (fun a _ => a) (fun _ _ _ => 0)
        [(⟨[5, 7], fun _ => 0⟩ : NdArr)] 720 10 "constant" 0 false =
      Except.error "input should be grey-scale image" ∧
    (elastic_transform_multi (fun g _ _ _ => g) (fun a _ => a) (fun _ _ _ => 0)
        [(⟨[4, 4, 2], fun _ => 0⟩ : NdArr)] 720 10 "constant" 0 false).isOk =
      true := by
  exact ⟨rfl, rfl⟩

/-- C8 amended: `elastic_transform_multi` accepts exactly 3-D arrays (or 4-D
arrays with a trailing singleton channel axis) per list element and returns a
deformed result for those; whenever any list element has a different rank it
raises a shape error instead of returning (`Exception` for a 4-D array with a
non-singleton last axis, `AssertionError` for every other non-3-D rank). -/
theorem C8_rank_check_amended (gf : Grid3 → ℚ → String → ℚ → Grid3)
    (mapC : NdArr → Grid3 × Grid3 × Grid3 → NdArr) (noise : Grid3)
    (x : List NdArr) (alpha sigma : ℚ) (mode : String) (cval : ℚ)
    (is_random : Bool) :
    (elastic_transform_multi gf mapC noise x alpha sigma mode cval
        is_random).isOk = x.all elastic_rank_ok := by
  unfold elastic_transform_multi
  have hgen : ∀ (sh : List Nat) (l : List NdArr),
      (elastic_results_loop
          (elastic_step gf mapC noise alpha sigma mode cval sh) l).isOk =
        l.all elastic_rank_ok := by
    intro sh l
    induction l with
    | nil => rfl
    | cons d rest ih =>
      rw [elastic_results_loop, List.all_cons]
      cases hd : elastic_step gf mapC noise alpha sigma mode cval sh d with
      | error e =>
        have := elastic_step_isOk gf mapC noise alpha sigma mode cval sh d
        rw [hd] at this
        simp only [Except.isOk, Except.toBool] at this ⊢
        rw [← this]
        simp
      | ok r =>
        have := elastic_step_isOk gf mapC noise alpha sigma mode cval sh d
        rw [hd] at this
        simp only [Except.isOk, Except.toBool] at this ⊢
        rw [← this, Bool.true_and]
        cases hrest : elastic_results_loop
            (elastic_step gf mapC noise alpha sigma mode cval sh) rest with
        | error e' =>
          rw [hrest] at ih
          exact ih
        | ok rs =>
          rw [hrest] at ih
          exact ih
  exact hgen (elastic_shape x) x

/-- C10: inside every call of `elastic_transform_multi`, the displacement
fields applied along the first two axes are computed by the same expression
from the same smoothed once-per-call noise with the same parameters and are
therefore equal at every voxel; the displacement along the last axis is
identically zero; hence the index mapping sends grid point (i, j, k) to
(i + d(i,j,k), j + d(i,j,k), k) for a single shared field d — a diagonal
displacement of the first two axes, never two independent fields. -/
theorem C10_diagonal_displacement (gf : Grid3 → ℚ → String → ℚ → Grid3)
    (noise : Grid3) (alpha sigma : ℚ) (mode : String) (cval : ℚ) :
    elastic_dx gf noise alpha sigma mode cval =
      elastic_dy gf noise alpha sigma mode cval ∧
    (∀ i j k, elastic_dz gf noise alpha sigma mode cval i j k = 0) ∧
    (elastic_indices gf noise alpha sigma mode cval).1 =
      (fun (i j k : Nat) =>
        (i : ℚ) + elastic_dx gf noise alpha sigma mode cval i j k) ∧
    (elastic_indices gf noise alpha sigma mode cval).2.1 =
      (fun (i j k : Nat) =>
        (j : ℚ) + elastic_dx gf noise alpha sigma mode cval i j k) ∧
    (elastic_indices gf noise alpha sigma mode cval).2.2 =
      (fun (_i _j k : Nat) => (k : ℚ)) := by
  refine ⟨rfl, fun i j k => rfl, rfl, rfl, ?_⟩
  funext _i _j k
  simp [elastic_indices, mesh_z, elastic_dz]

/-!
## Multi-label expansion (C5) and the 2.5D central-slice target (C6)
-/

theorem getD_map_of_lt (f : α → β) (l : List α) (i : Nat) (hi : i < l.length)
    (d : α) (d' : β) : (l.map f).getD i d' = f (l.getD i d) := by
  rw [List.getD_eq_getElem?_getD, List.getD_eq_getElem?_getD,
    List.getElem?_map, List.getElem?_eq_getElem hi]
  rfl

theorem getD_range_map (g : Nat → β) (n i : Nat) (hi : i < n) (d : β) :
    ((List.range n).map g).getD i d = g i := by
  rw [getD_map_of_lt g (List.range n) i (by simpa using hi) 0 d]
  congr 1
  rw [List.getD_eq_getElem?_getD, List.getElem?_range hi]
  rfl

theorem getD_mem_of_lt (l : List α) (i : Nat) (d : α) (hi : i < l.length) :
    l.getD i d ∈ l := by
  rw [List.getD_eq_getElem?_getD, List.getElem?_eq_getElem hi]
  simp only [Option.getD_some]
  exact List.getElem_mem hi

theorem headD_mem_of_ne_nil (l : List α) (d : α) (h : l ≠ []) :
    l.headD d ∈ l := by
  cases l with
  | nil => exact absurd rfl h
  | cons a t => simp

/-- `get_multi_class_labels` (src/unet2d/generator.py:354-369): `y` starts as
`np.zeros([n_samples, n_labels] + data.shape[2:])` and channel `label_index`
is set to 1 where channel 0 of the input (`data[:, 0]`) equals
`labels[label_index]` — or `label_index + 1` when no label list is given —
so pointwise the output is 1 there and 0 elsewhere.  Samples are lists of
channels with the spatial axes flattened; the `data.shape[2:]` extent
coincides with the extent of channel 0. -/
def get_multi_class_labels (data : List ChArr) (n_labels : Nat)
    (labels : Option (List Int)) : List ChArr :=
  data.map (fun sample =>
    (List.range n_labels).map (fun label_index =>
      (sample.headD []).map (fun v =>
        match labels with
        | some ls => if v = ls.getD label_index 0 then (1 : Int) else 0
        | none => if v = (label_index : Int) + 1 then (1 : Int) else 0)))

/-- C5: for a target array of shape (n_samples, 1, ...) and a label list of
length n_labels, `get_multi_class_labels` returns a binary array of shape
(n_samples, n_labels, ...) whose channel `i` is 1 exactly at the positions
where source channel 0 equals `labels[i]` and 0 elsewhere; with no label
list, channel `i` is 1 exactly where the source equals `i + 1`. -/
theorem C5_multi_class_labels (data : List ChArr) (n_labels : Nat)
    (ls : List Int) (hlen : ls.length = n_labels) :
    (get_multi_class_labels data n_labels (some ls)).length = data.length ∧
    (get_multi_class_labels data n_labels none).length = data.length ∧
    (∀ s, s < data.length →
      ((get_multi_class_labels data n_labels (some ls)).getD s []).length
        = n_labels ∧
      ((get_multi_class_labels data n_labels none).getD s []).length
        = n_labels) ∧
    (∀ s i, s < data.length → i < n_labels →
      (((get_multi_class_labels data n_labels (some ls)).getD s []).getD
          i []).length = ((data.getD s []).headD []).length ∧
      (((get_multi_class_labels data n_labels none).getD s []).getD
          i []).length = ((data.getD s []).headD []).length) ∧
    (∀ s i p, s < data.length → i < n_labels →
      p < ((data.getD s []).headD []).length →
      ((((get_multi_class_labels data n_labels (some ls)).getD s []).getD
          i []).getD p 0 =
        if ((data.getD s []).headD []).getD p 0 = ls.getD i 0 then 1 else 0) ∧
      ((((get_multi_class_labels data n_labels none).getD s []).getD
          i []).getD p 0 =
        if ((data.getD s []).headD []).getD p 0 = (i : Int) + 1 then 1
        else 0)) := by
  have hL : ls.length = n_labels := hlen
  clear hL
  refine ⟨by simp [get_multi_class_labels], by simp [get_multi_class_labels],
    ?_, ?_, ?_⟩
  · intro s hs
    constructor <;>
    · rw [get_multi_class_labels, getD_map_of_lt _ data s hs []]
      simp
  · intro s i hs hi
    constructor <;>
    · rw [get_multi_class_labels, getD_map_of_lt _ data s hs [],
        getD_range_map _ n_labels i hi []]
      simp
  · intro s i p hs hi hp
    constructor
    · rw [get_multi_class_labels, getD_map_of_lt _ data s hs [],
        getD_range_map _ n_labels i hi [],
        getD_map_of_lt _ ((data.getD s []).headD []) p hp 0]
    · rw [get_multi_class_labels, getD_map_of_lt _ data s hs [],
        getD_range_map _ n_labels i hi [],
        getD_map_of_lt _ ((data.getD s []).headD []) p hp 0]

/-- Witness for C5 at the spec's example label list (10, 25, 50): channel 2
of sample 1 is 1 at position 0 because the source value there is 50. -/
theorem C5_multi_class_labels_witness :
    ([10, 25, 50] : List Int).length = 3 ∧
    (((get_multi_class_labels [[[10, 25, 0, 50]], [[50, 10, 25, 10]]] 3
        (some [10, 25, 50])).getD 1 []).getD 2 []).getD 0 0 =
      (if ((([[[10, 25, 0, 50]], [[50, 10, 25, 10]]] : List ChArr).getD 1
          []).headD []).getD 0 0 = ([10, 25, 50] : List Int).getD 2 0 then 1
       else 0) :=
  ⟨by decide,
    ((C5_multi_class_labels [[[10, 25, 0, 50]], [[50, 10, 25, 10]]] 3
      [10, 25, 50] (by decide)).2.2.2.2 1 2 0 (by decide) (by decide)
      (by decide)).1⟩

/-- Values along the last (slice) axis of a 2.5D target stack. -/
abbrev Row := List Int

/-- A 2.5D target stack: samples × channels × remaining spatial extent ×
last (slice) axis. -/
abbrev Arr4 := List (List (List Row))

/-- The result of slicing away the last axis. -/
abbrev Arr3i := List (List (List Int))

/-- `y[y > 0] = 1` for one value: positives become 1, everything else
(zero and negatives) is left unchanged. -/
def bin_pos (v : Int) : Int := if 0 < v then 1 else v

/-- `get_multi_class_labels` as invoked by `convert_data25d`
(src/unet25d/generator.py:223, imported from unet3d/generator.py whose body
is the same as src/unet2d/generator.py:354-369), applied to a target stack
that still carries its last (slice) axis. -/
def get_multi_class_labels25 (data : Arr4) (n_labels : Nat)
    (labels : Option (List Int)) : Arr4 :=
  data.map (fun sample =>
    (List.range n_labels).map (fun label_index =>
      (sample.headD []).map (fun r3 => r3.map (fun v =>
        match labels with
        | some ls => if v = ls.getD label_index 0 then (1 : Int) else 0
        | none => if v = (label_index : Int) + 1 then (1 : Int) else 0))))

/-- The target conversion inside `convert_data25d`
(src/unet25d/generator.py:220-223): binarize in place when `n_labels == 1`,
one-hot expand when `n_labels > 1`, otherwise leave unchanged. -/
def convert_truth25d (y : Arr4) (n_labels : Nat)
    (labels : Option (List Int)) : Arr4 :=
  if n_labels = 1 then
    y.map (fun sample => sample.map (fun ch => ch.map (fun row =>
      row.map bin_pos)))
  else if 1 < n_labels then
    get_multi_class_labels25 y n_labels labels
  else y

/-- `convert_data25d` (src/unet25d/generator.py:217-225): stack the lists,
convert the target, compute `slice_gt = y.shape[-1] // 2` on the converted
stack, and return `(x, y[..., slice_gt])`.  The inputs `x` are opaque and
returned as stacked; `y.shape[-1]` is the (uniform) innermost length, read
off the first element as numpy reads it off the array header. -/
def convert_data25d (x : List χ) (y_list : Arr4) (n_labels : Nat)
    (labels : Option (List Int)) : List χ × Arr3i :=
  let y := convert_truth25d y_list n_labels labels
  let slice_gt := (((y.headD []).headD []).headD []).length / 2
  (x, y.map (fun sample => sample.map (fun ch => ch.map (fun row =>
    row.getD slice_gt 0))))

theorem getD3_map (f : Row → Int) (y : Arr4) (s c r : Nat)
    (hs : s < y.length) (hc : c < (y.getD s []).length)
    (hr : r < ((y.getD s []).getD c []).length) :
    (((y.map (fun sample => sample.map (fun ch => ch.map f))).getD
        s []).getD c []).getD r 0 =
      f (((y.getD s []).getD c []).getD r []) := by
  rw [getD_map_of_lt _ y s hs []]
  rw [getD_map_of_lt _ (y.getD s []) c hc []]
  rw [getD_map_of_lt _ ((y.getD s []).getD c []) r hr []]

/-- C6: for every batch assembled by the 2.5D generator, `convert_data25d`
returns the stacked inputs unchanged, and as supervision target only the
central slice of the converted target stack along its last axis — the slice
at index `shape[-1] / 2` — dropping all other slices: pointwise, the
single-label output at (sample, channel, position) is the binarized value of
the original stack at (sample, channel, position, L / 2), and the
multi-label output at (sample, label i, position) is 1 exactly when the
original channel-0 value at slice L / 2 equals `labels[i]`. -/
theorem C6_central_slice (x : List χ) (y_list : Arr4) (L : Nat)
    (labels : Option (List Int)) (ls : List Int) (n_labels : Nat)
    (hL : 0 < L)
    (huni : ∀ s ∈ y_list, ∀ c ∈ s, ∀ row ∈ c, row.length = L)
    (hy : y_list ≠ []) (hs0 : y_list.headD [] ≠ [])
    (hc0 : (y_list.headD []).headD [] ≠ []) (hn : 1 < n_labels) :
    (∀ n ls2, (convert_data25d x y_list n ls2).1 = x) ∧
    (∀ s c r, s < y_list.length → c < (y_list.getD s []).length →
      r < ((y_list.getD s []).getD c []).length →
      ((((convert_data25d x y_list 1 labels).2).getD s []).getD c []).getD
          r 0 =
        bin_pos ((((y_list.getD s []).getD c []).getD r []).getD (L / 2) 0)) ∧
    (∀ s i r, s < y_list.length → i < n_labels →
      r < ((y_list.getD s []).headD []).length →
      ((((convert_data25d x y_list n_labels (some ls)).2).getD s []).getD
          i []).getD r 0 =
        (if (((y_list.getD s []).headD []).getD r []).getD (L / 2) 0
            = ls.getD i 0 then 1 else 0)) := by
  obtain ⟨s0, yt, rfl⟩ : ∃ s0 yt, y_list = s0 :: yt := by
    cases y_list with
    | nil => exact absurd rfl hy
    | cons a t => exact ⟨a, t, rfl⟩
  simp only [List.headD_cons] at hs0 hc0
  obtain ⟨c0, st, rfl⟩ : ∃ c0 st, s0 = c0 :: st := by
    cases s0 with
    | nil => exact absurd rfl hs0
    | cons a t => exact ⟨a, t, rfl⟩
  simp only [List.headD_cons] at hc0
  obtain ⟨r0, ct, rfl⟩ : ∃ r0 ct, c0 = r0 :: ct := by
    cases c0 with
    | nil => exact absurd rfl hc0
    | cons a t => exact ⟨a, t, rfl⟩
  have hr0L : r0.length = L :=
    huni _ (List.mem_cons_self _ _) _ (List.mem_cons_self _ _) _
      (List.mem_cons_self _ _)
  refine ⟨fun n ls2 => rfl, ?_, ?_⟩
  · intro s c r hs hc hr
    have h2 : (convert_data25d x (((r0 :: ct) :: st) :: yt) 1 labels).2 =
        (convert_truth25d (((r0 :: ct) :: st) :: yt) 1 labels).map
          (fun sample => sample.map (fun ch => ch.map (fun row =>
            row.getD
              (((((convert_truth25d (((r0 :: ct) :: st) :: yt) 1
                  labels).headD []).headD []).headD []).length / 2) 0))) := rfl
    have hbconv : convert_truth25d (((r0 :: ct) :: st) :: yt) 1 labels =
        (((r0 :: ct) :: st) :: yt).map (fun sample => sample.map (fun ch =>
          ch.map (fun row => row.map bin_pos))) := by
      rw [convert_truth25d, if_pos rfl]
    rw [h2, hbconv]
    have hsg : ((((((((r0 :: ct) :: st) :: yt).map (fun sample =>
        sample.map (fun ch => ch.map (fun row =>
          row.map bin_pos)))).headD []).headD []).headD []).length) = L := by
      simp only [List.map_cons, List.headD_cons]
      rw [List.length_map, hr0L]
    rw [hsg]
    simp only [List.map_map, Function.comp_def]
    rw [getD3_map _ _ s c r hs hc hr]
    have hrowmem : ((((((r0 :: ct) :: st) :: yt).getD s []).getD c []).getD
        r []) ∈ (((((r0 :: ct) :: st) :: yt).getD s []).getD c []) :=
      getD_mem_of_lt _ r [] hr
    have hcmem : ((((r0 :: ct) :: st) :: yt).getD s []).getD c [] ∈
        ((((r0 :: ct) :: st) :: yt).getD s []) := getD_mem_of_lt _ c [] hc
    have hsmem : (((r0 :: ct) :: st) :: yt).getD s [] ∈
        (((r0 :: ct) :: st) :: yt) := getD_mem_of_lt _ s [] hs
    have hrowL : ((((((r0 :: ct) :: st) :: yt).getD s []).getD c []).getD
        r []).length = L := huni _ hsmem _ hcmem _ hrowmem
    rw [getD_map_of_lt bin_pos _ (L / 2) (by omega) 0 0]
  · intro s i r hs hi hr
    have h3 : (convert_data25d x (((r0 :: ct) :: st) :: yt) n_labels
        (some ls)).2 =
        (convert_truth25d (((r0 :: ct) :: st) :: yt) n_labels
            (some ls)).map
          (fun sample => sample.map (fun ch => ch.map (fun row =>
            row.getD
              (((((convert_truth25d (((r0 :: ct) :: st) :: yt) n_labels
                  (some ls)).headD []).headD []).headD []).length / 2) 0))) :=
      rfl
    have hmconv : convert_truth25d (((r0 :: ct) :: st) :: yt) n_labels
        (some ls) =
        get_multi_class_labels25 (((r0 :: ct) :: st) :: yt) n_labels
          (some ls) := by
      rw [convert_truth25d, if_neg (by omega), if_pos hn]
    rw [h3, hmconv]
    obtain ⟨m, rfl⟩ : ∃ m, n_labels = m + 1 := ⟨n_labels - 1, by omega⟩
    have hsg : ((((get_multi_class_labels25 (((r0 :: ct) :: st) :: yt)
        (m + 1) (some ls)).headD []).headD []).headD []).length = L := by
      rw [get_multi_class_labels25]
      simp only [List.map_cons, List.headD_cons, List.range_succ_eq_map]
      rw [List.length_map, hr0L]
    rw [hsg]
    rw [get_multi_class_labels25]
    simp only [List.map_map, Function.comp_def]
    rw [getD_map_of_lt _ _ s hs []]
    rw [getD_range_map _ (m + 1) i hi []]
    rw [getD_map_of_lt _ _ r hr []]
    have hsmem : (((r0 :: ct) :: st) :: yt).getD s [] ∈
        (((r0 :: ct) :: st) :: yt) := getD_mem_of_lt _ s [] hs
    have hsne : (((r0 :: ct) :: st) :: yt).getD s [] ≠ [] := by
      intro hnil
      rw [hnil] at hr
      simp at hr
    have hchmem : ((((r0 :: ct) :: st) :: yt).getD s []).headD [] ∈
        ((((r0 :: ct) :: st) :: yt).getD s []) :=
      headD_mem_of_ne_nil _ [] hsne
    have hrowmem : (((((r0 :: ct) :: st) :: yt).getD s []).headD []).getD
        r [] ∈ ((((r0 :: ct) :: st) :: yt).getD s []).headD [] :=
      getD_mem_of_lt _ r [] hr
    have hrowL : ((((((r0 :: ct) :: st) :: yt).getD s []).headD []).getD
        r []).length = L := huni _ hsmem _ hchmem _ hrowmem
    rw [getD_map_of_lt _ _ (L / 2) (by omega) 0 0]

/-- Witness for C6: a stack with one sample, one channel, one spatial
position and three slices [1, 2, 3]; the supervision value is the binarized
central slice (index 3 / 2 = 1), i.e. `bin_pos 2 = 1`. -/
theorem C6_central_slice_witness :
    ((0 : Nat) < 3) ∧
    ((((convert_data25d [(5 : Nat)] [[[[1, 2, 3]]]] 1 none).2).getD
        0 []).getD 0 []).getD 0 0 =
      bin_pos ((((([[[[1, 2, 3]]]] : Arr4).getD 0 []).getD 0 []).getD
        0 []).getD (3 / 2) 0) :=
  ⟨by decide,
    (C6_central_slice [(5 : Nat)] [[[[1, 2, 3]]]] 3 none [4, 6] 2 (by decide)
      (by decide) (by decide) (by decide) (by decide) (by decide)).2.1 0 0 0
      (by decide) (by decide) (by decide)⟩

end MedSeg
